import Mathlib

/-!
Shallow embedding of the embedding-backed indexing and retrieval engine:
the in-memory vector store (`src/services/vector-store.js`), the embedding
service (batching and text preprocessing), and the file agent's read cache
and indexing report aggregation.

Conventions of the embedding:
* JavaScript numbers are modelled as real numbers (`ℝ`); the spec's claims
  about similarity values are exact statements over `ℝ`.
* JavaScript `Map` objects are modelled as association lists in insertion
  order (JS `Map` iterates in insertion order; `set` on an existing key
  updates in place, keeping the original position).
* Thrown errors are modelled with `Except`; functions that mutate `this`
  return the new state explicitly, and a state returned alongside an
  `Except.error` is the state at the moment of the throw.
* `Date.now()` is impure; the current time is passed as an explicit
  argument.
* External collaborators (the HTTP embedding backend, the view tool's
  filesystem read, the per-file indexing promise) are passed as function
  arguments (oracles).
-/

namespace AgentExtension

/-- JS `Map.get`: first value bound to `k`, if any. -/
def getEntry (l : List (String × α)) (k : String) : Option α :=
  (l.find? (fun p => p.1 == k)).map (·.2)

/-- JS `Map.set`: update in place if the key is present (keeping its position in
insertion order), otherwise append at the end. -/
def setEntry (l : List (String × α)) (k : String) (v : α) : List (String × α) :=
  match l with
  | [] => [(k, v)]
  | (k', v') :: rest => if k' = k then (k, v) :: rest else (k', v') :: setEntry rest k v

/-- JS `Map.delete`: remove the binding for `k`, if present. -/
def removeEntry (l : List (String × α)) (k : String) : List (String × α) :=
  match l with
  | [] => []
  | (k', v') :: rest => if k' = k then rest else (k', v') :: removeEntry rest k

/-! ## Vector store (`src/services/vector-store.js`) -/

/-- Metadata record as stored by `storeVector`: the caller's metadata object
spread together with a `timestamp: Date.now()` field. -/
structure StoredMeta (μ : Type) where
  payload : μ
  timestamp : Nat
  deriving Repr, DecidableEq

/-- State of a `VectorStore` instance: `dimensions` is `null` until the first
successful store; `vectors` and `metadata` are insertion-ordered maps keyed by
id. `μ` is the type of caller-supplied metadata objects. -/
structure VectorStore (μ : Type) where
  dimensions : Option Nat
  vectors : List (String × List ℝ)
  metadata : List (String × StoredMeta μ)
  initialized : Bool

/-- Errors thrown by the vector store's methods. -/
inductive VSError where
  | notInitialized
  | invalidId
  | invalidVector
  | invalidQueryVector
  | dimensionMismatch (expected got : Nat)
  | queryDimensionMismatch (expected got : Nat)
  deriving Repr, DecidableEq

/-- Return value of a successful `storeVector`. -/
structure StoreResult where
  id : String
  success : Bool
  deriving Repr, DecidableEq

/-- Source `storeVector(id, vector, metadata)` (vector-store.js lines 45–85):
validates initialization, id and vector; sets `dimensions` from the vector's
length if still `null`; throws a dimension mismatch if the length differs from
the fixed dimension; otherwise overwrites the vector and metadata entries for
`id` (metadata stamped with `timestamp: now`). The returned store is the state
after the call (unchanged whenever an error is thrown, since every throw
happens before the map writes; the `dimensions` assignment that precedes the
mismatch check only fires when `dimensions` was `null`, in which case the
check passes). -/
def storeVector (s : VectorStore μ) (id : String) (vector : List ℝ) (metadata : μ)
    (now : Nat) : VectorStore μ × Except VSError StoreResult :=
  if s.initialized = false then (s, .error .notInitialized)
  else if id = "" then (s, .error .invalidId)
  else if vector.length = 0 then (s, .error .invalidVector)
  else
    let dims := s.dimensions.getD vector.length
    if vector.length ≠ dims then
      ({ s with dimensions := some dims }, .error (.dimensionMismatch dims vector.length))
    else
      ({ s with dimensions := some dims,
                vectors := setEntry s.vectors id vector,
                metadata := setEntry s.metadata id ⟨metadata, now⟩ },
        .ok { id := id, success := true })

/-- Record shape returned by `getAllVectors`; `metadata = none` models the
`this.metadata.get(id) || {}` default for a missing metadata entry. -/
structure VectorRecord (μ : Type) where
  id : String
  vector : List ℝ
  metadata : Option (StoredMeta μ)

/-- Source `getAllVectors()` (vector-store.js lines 159–174): every stored record in
insertion order. -/
def getAllVectors (s : VectorStore μ) : Except VSError (List (VectorRecord μ)) :=
  if s.initialized = false then .error .notInitialized
  else .ok (s.vectors.map (fun p => { id := p.1, vector := p.2, metadata := getEntry s.metadata p.1 }))

/-- The accumulation loop of `_calculateCosineSimilarity` (vector-store.js
lines 183–194): running over `i < min(|a|, |b|)` it accumulates
`(dotProduct, normA, normB)` where the norms are still the sums of squares.
`List.zip` truncates at the shorter list, matching the loop bound. -/
def cosineAccum (vectorA vectorB : List ℝ) : ℝ × ℝ × ℝ :=
  (List.zip vectorA vectorB).foldl
    (fun acc p => (acc.1 + p.1 * p.2, acc.2.1 + p.1 * p.1, acc.2.2 + p.2 * p.2))
    (0, 0, 0)

/-- Source `_calculateCosineSimilarity` (vector-store.js lines 183–204): square roots
of the accumulated norms; similarity `0` when either norm is `0`, else
`dot / (normA * normB)`. -/
noncomputable def calculateCosineSimilarity (vectorA vectorB : List ℝ) : ℝ :=
  let acc := cosineAccum vectorA vectorB
  let normA := Real.sqrt acc.2.1
  let normB := Real.sqrt acc.2.2
  if normA = 0 ∨ normB = 0 then 0 else acc.1 / (normA * normB)

/-- Mathematical dot product, written from the spec's formula
`dot(a,b) / (|a| * |b|)` for comparison with the source function. -/
def specDot (a b : List ℝ) : ℝ := (List.zipWith (· * ·) a b).sum

/-- Sum of squares of the entries (the square of the Euclidean norm), spec
side. -/
def specNormSq (a : List ℝ) : ℝ := (a.map (fun x => x * x)).sum

/-- Euclidean norm `|a|`, spec side. -/
noncomputable def specNorm (a : List ℝ) : ℝ := Real.sqrt (specNormSq a)

/-- One element of `findSimilar`'s result list: `{id, similarity, metadata}`,
with `metadata = none` modelling the `|| {}` default. -/
structure SimilarityResult (μ : Type) where
  id : String
  similarity : ℝ
  metadata : Option (StoredMeta μ)

/-- The scan loop of `findSimilar` (vector-store.js lines 109–121): for every
stored record in insertion order, compute the cosine similarity to the query
and keep the record exactly when `similarity >= threshold`. -/
noncomputable def collectSimilarities (s : VectorStore μ) (queryVector : List ℝ)
    (threshold : ℝ) : List (SimilarityResult μ) :=
  s.vectors.filterMap (fun p =>
    let similarity := calculateCosineSimilarity queryVector p.2
    if threshold ≤ similarity then
      some { id := p.1, similarity := similarity, metadata := getEntry s.metadata p.1 }
    else none)

/-- Stable insertion step of the descending sort: `x` goes in front of the
first element it is strictly more similar than, hence after every
earlier-inserted element of equal similarity. -/
noncomputable def insertBySimilarity (x : SimilarityResult μ) :
    List (SimilarityResult μ) → List (SimilarityResult μ)
  | [] => [x]
  | y :: ys => if y.similarity ≤ x.similarity then x :: y :: ys else y :: insertBySimilarity x ys

/-- Source `similarities.sort((a, b) => b.similarity - a.similarity)` (vector-store.js
line 124): JS `Array.prototype.sort` is stable, so this is a stable descending
sort by similarity, modelled as a stable insertion sort. -/
noncomputable def sortBySimilarityDesc :
    List (SimilarityResult μ) → List (SimilarityResult μ)
  | [] => []
  | x :: xs => insertBySimilarity x (sortBySimilarityDesc xs)

/-- Dimension validation of `findSimilar` (vector-store.js line 104):
`this.dimensions !== null && queryVector.length !== this.dimensions`. -/
def queryDimensionBad : Option Nat → Nat → Bool
  | some d, n => n ≠ d
  | none, _ => false

/-- Source `findSimilar(queryVector, limit, threshold)` (vector-store.js lines
94–126): validation, threshold scan, stable descending sort, then
`slice(0, limit)`. -/
noncomputable def findSimilar (s : VectorStore μ) (queryVector : List ℝ) (limit : Nat)
    (threshold : ℝ) : Except VSError (List (SimilarityResult μ)) :=
  if s.initialized = false then .error .notInitialized
  else if queryVector.length = 0 then .error .invalidQueryVector
  else if queryDimensionBad s.dimensions queryVector.length then
    .error (.queryDimensionMismatch (s.dimensions.getD 0) queryVector.length)
  else
    .ok ((sortBySimilarityDesc (collectSimilarities s queryVector threshold)).take limit)

/-! ## Embedding service (`src/unnamed/part_003`) -/

/-- Constant `this.maxTextLength = 8192` — a model-specific constant set in the
constructor. -/
def maxTextLength : Nat := 8192

/-- The character class of the JavaScript regular-expression `\s` and of
`String.prototype.trim` (whitespace plus line terminators); the less common
Unicode space code points are omitted from the model. -/
def isJsWhitespace (c : Char) : Bool :=
  c = ' ' || c = '\t' || c = '\n' || c = '\r' || c = '\x0b' || c = '\x0c' ||
    c = '\u00A0' || c = '\uFEFF'

/-- JavaScript `String.prototype.trim`: drop leading and trailing whitespace.
Strings are modelled as lists of characters. -/
def jsTrim (l : List Char) : List Char :=
  ((l.dropWhile isJsWhitespace).reverse.dropWhile isJsWhitespace).reverse

/-- Source `replace(/\s+/g, ' ')`: every maximal run of whitespace characters becomes
a single space. -/
def collapseWs : List Char → List Char
  | [] => []
  | c :: cs =>
    if isJsWhitespace c then ' ' :: collapseWs (cs.dropWhile isJsWhitespace)
    else c :: collapseWs cs
termination_by l => l.length
decreasing_by
  · exact Nat.lt_succ_of_le (List.dropWhile_sublist _).length_le
  · exact Nat.lt_succ_self _

/-- Source `_preprocessText` (part_003 lines 121–131): truncate to `maxTextLength`
(`substring(0, 8192)` is `take 8192`), then `trim()`, then
`replace(/\s+/g, ' ')`. A non-string input maps to the empty string, which is
outside the model's `List Char` input type. -/
def preprocessText (text : List Char) : List Char :=
  collapseWs (jsTrim (text.take maxTextLength))

/-- State of the embedding service; only the fields the modelled operations
consult are kept (`modelId`, `apiEndpoint`, `apiKey`, `dimensions` and
`requestTimeout` are consumed solely by the HTTP layer, which is abstracted as
an oracle). -/
structure EmbeddingService where
  maxBatchSize : Nat
  initialized : Bool

/-- Errors thrown by the embedding service's generate methods. -/
inductive EmbError where
  | notInitialized
  | invalidInput
  | requestFailed (message : String)
  deriving Repr, DecidableEq

/-- Source `generateEmbedding(text)` (part_003 lines 52–72): requires initialization
and a non-empty string; preprocesses and forwards to `_callApi` (the oracle
`capi`), wrapping any upstream failure message. -/
def generateEmbedding (svc : EmbeddingService) (capi : List Char → Except String (List ℝ))
    (text : List Char) : Except EmbError (List ℝ) :=
  if svc.initialized = false then .error .notInitialized
  else if text = [] then .error .invalidInput
  else
    Except.mapError (fun e => .requestFailed ("Failed to generate embedding: " ++ e))
      (capi (preprocessText text))

/-- Source `generateBatchEmbeddings(texts)` (part_003 lines 79–113): requires
initialization and a non-empty array. When the batch exceeds `maxBatchSize`,
the source's `for (let i = 0; i < texts.length; i += this.maxBatchSize)` loop
takes successive slices of size `maxBatchSize` and recursively calls
`generateBatchEmbeddings` on each, concatenating the results in order; the
loop is modelled as recursion on head chunk plus remainder, which produces the
same chunk sequence. Otherwise every text is preprocessed and the whole batch
is sent as one request to `_callApi` (the oracle `capi`), wrapping any
upstream failure message. The hypothesis `hk` is required for termination:
with `maxBatchSize = 0` the source's loop never advances. -/
def generateBatchEmbeddings (svc : EmbeddingService)
    (capi : List (List Char) → Except String (List (List ℝ)))
    (hk : 0 < svc.maxBatchSize)
    (texts : List (List Char)) : Except EmbError (List (List ℝ)) :=
  if svc.initialized = false then .error .notInitialized
  else if texts.length = 0 then .error .invalidInput
  else if h : svc.maxBatchSize < texts.length then
    have h1 : (texts.take svc.maxBatchSize).length < texts.length := by
      rw [List.length_take]
      exact Nat.lt_of_le_of_lt (Nat.min_le_left _ _) h
    have h2 : (texts.drop svc.maxBatchSize).length < texts.length := by
      rw [List.length_drop]
      exact Nat.sub_lt (Nat.lt_of_le_of_lt (Nat.zero_le _) h) hk
    do
      let headResults ← generateBatchEmbeddings svc capi hk (texts.take svc.maxBatchSize)
      let tailResults ← generateBatchEmbeddings svc capi hk (texts.drop svc.maxBatchSize)
      pure (headResults ++ tailResults)
  else
    Except.mapError (fun e => .requestFailed ("Failed to generate batch embeddings: " ++ e))
      (capi (texts.map preprocessText))
termination_by texts.length
decreasing_by
  · exact h1
  · exact h2

/-! ## File agent (`src/unnamed/part_002`): read cache and indexing report -/

/-- Metadata attached to a view-tool read: `{size, encoding, timestamp}`. -/
structure FileMeta where
  size : Nat
  encoding : String
  timestamp : Nat
  deriving Repr, DecidableEq

/-- Successful payload of `viewTool.execute(path)`. -/
structure ViewData where
  content : String
  metadata : FileMeta
  deriving Repr, DecidableEq

/-- One entry of `this.fileCache`: `{content, metadata, timestamp}` with
`timestamp` the time the entry was cached. -/
structure CacheEntry where
  content : String
  metadata : FileMeta
  timestamp : Nat
  deriving Repr, DecidableEq

/-- Constant `this.cacheTTL = 1800000` — 30 minutes, set in the constructor. -/
def cacheTTL : Nat := 1800000

/-- Mutable state of a `FileAgent` relevant to reads: the path-keyed content
cache. -/
structure FileAgentState where
  fileCache : List (String × CacheEntry)
  deriving Repr, DecidableEq

/-- The `data` payload of a successful `readFile`. -/
structure ReadData where
  path : String
  content : String
  metadata : FileMeta
  fromCache : Bool
  deriving Repr, DecidableEq

/-- The fresh-read tail of `readFile` (part_002 lines 102–128): call the view
tool (the oracle `view`), throw on failure, cache the content with
`timestamp: now`, return `fromCache: false`. -/
def freshRead (a : FileAgentState) (view : String → Except String ViewData) (now : Nat)
    (path : String) : FileAgentState × Except String ReadData :=
  match view path with
  | .error e => (a, .error ("Failed to read file " ++ path ++ ": " ++ e))
  | .ok d =>
    ({ fileCache := setEntry a.fileCache path ⟨d.content, d.metadata, now⟩ },
      .ok { path := path, content := d.content, metadata := d.metadata, fromCache := false })

/-- Source `readFile(path)` (part_002 lines 71–129): missing path throws; a cache
entry with `now - cachedAt < cacheTTL` is returned with `fromCache: true`
(state untouched); an expired entry is deleted and a fresh read follows; a
missing entry goes straight to the fresh read. The time comparison is over `ℤ`
as in JavaScript number arithmetic. -/
def readFile (a : FileAgentState) (view : String → Except String ViewData) (now : Nat)
    (path : String) : FileAgentState × Except String ReadData :=
  if path = "" then (a, .error "Missing required parameter: path")
  else
    match getEntry a.fileCache path with
    | some e =>
      if (now : ℤ) - (e.timestamp : ℤ) < (cacheTTL : ℤ) then
        (a, .ok { path := path, content := e.content, metadata := e.metadata, fromCache := true })
      else
        freshRead { fileCache := removeEntry a.fileCache path } view now path
    | none => freshRead a view now path

/-- One element of an indexing report's `details`: a fulfilled
`_indexSingleFile` yields `{path, success: true, size, timestamp}` and a
rejected one yields `{path, success: false, error}`; the fields absent in one
shape are `Option`s. -/
structure IndexDetail where
  path : String
  success : Bool
  error : Option String
  size : Option Nat
  timestamp : Option Nat
  deriving Repr, DecidableEq

/-- The detail entry `indexFiles` pushes for a rejected per-file promise
(part_002 lines 317–323), with the rejection's message. -/
def mkFailDetail (path : String) (message : String) : IndexDetail :=
  { path := path, success := false, error := some message, size := none, timestamp := none }

/-- The aggregate `results` object of `indexFiles` (part_002 lines 293–299). -/
structure IndexingReport where
  pattern : String
  totalFiles : Nat
  processedFiles : Nat
  failedFiles : Nat
  details : List IndexDetail
  deriving Repr, DecidableEq

/-- Source `files.slice(i, i + batchSize)` partitioning of the batch loop
(part_002 line 303): successive slices of `k` elements. The `k = 0` branch is
degenerate and unused (the source's batch size is the literal `10`). -/
def chunksOf (k : Nat) : List α → List (List α)
  | [] => []
  | x :: xs =>
    if hk : k = 0 then [x :: xs]
    else
      have : ((x :: xs).drop k).length < (x :: xs).length := by
        rw [List.length_drop]
        exact Nat.sub_lt (Nat.succ_pos _) (Nat.pos_of_ne_zero hk)
      (x :: xs).take k :: chunksOf k ((x :: xs).drop k)
termination_by l => l.length

/-- Folding one settled per-file result into the running `results` (part_002
lines 309–324): a fulfilled promise increments `processedFiles` and pushes its
detail; a rejected one increments `failedFiles` and pushes a failure detail
with the rejection message. -/
def foldFile (outcome : String → Except String IndexDetail)
    (results : IndexingReport) (filePath : String) : IndexingReport :=
  match outcome filePath with
  | .ok d =>
    { results with processedFiles := results.processedFiles + 1,
                   details := results.details ++ [d] }
  | .error msg =>
    { results with failedFiles := results.failedFiles + 1,
                   details := results.details ++ [mkFailDetail filePath msg] }

/-- Folding one settled batch into the running `results`: the inner `for j`
loop over the batch's settled results, in the batch's order. -/
def foldBatch (outcome : String → Except String IndexDetail)
    (results : IndexingReport) (batch : List String) : IndexingReport :=
  batch.foldl (foldFile outcome) results

/-- The aggregation of `indexFiles(pattern)` (part_002 lines 266–348) over the
resolved file list: batches of `10` are processed in order, and within a batch
`Promise.allSettled` reports the per-file outcomes in the batch's order. The
settled outcome of each `_indexSingleFile(file)` promise is abstracted as the
oracle `outcome`. -/
def indexFilesReport (outcome : String → Except String IndexDetail) (pattern : String)
    (files : List String) : IndexingReport :=
  (chunksOf 10 files).foldl (foldBatch outcome)
    { pattern := pattern, totalFiles := files.length, processedFiles := 0,
      failedFiles := 0, details := [] }

/-! ## Spec-side helper predicates and concrete instances -/

/-- The per-file detail `indexFiles` records for `filePath`: the fulfilled
detail on success, the failure entry on rejection. -/
def detailOf (outcome : String → Except String IndexDetail) (filePath : String) : IndexDetail :=
  match outcome filePath with
  | .ok d => d
  | .error msg => mkFailDetail filePath msg

/-- The list has no leading whitespace character. -/
def noLeadWs (l : List Char) : Prop :=
  ∀ c, l.head? = some c → isJsWhitespace c = false

/-- The list has no trailing whitespace character. -/
def noTrailWs (l : List Char) : Prop := noLeadWs l.reverse

/-- Fully collapsed whitespace: every whitespace character is a single space
not followed by further whitespace. `collapseWs` is the identity exactly on
such lists. -/
def wsCollapsed : List Char → Bool
  | [] => true
  | [c] => !isJsWhitespace c || c = ' '
  | c :: d :: cs =>
    (!isJsWhitespace c || (c = ' ' && !isJsWhitespace d)) && wsCollapsed (d :: cs)

/-- A freshly initialized, empty vector store. -/
def emptyStore : VectorStore Unit :=
  { dimensions := none, vectors := [], metadata := [], initialized := true }

/-- A planar unit vector whose cosine similarity to `[1, 0]` is exactly `x`
(for `x * x ≤ 1`). -/
noncomputable def unitVec (x : ℝ) : List ℝ := [x, Real.sqrt (1 - x * x)]

/-- Store of four 2-dimensional vectors whose cosine similarities to the query
`[1, 0]` are `0.9`, `0.95`, `0.2`, `0.95` in insertion order. -/
noncomputable def c3Store : VectorStore Unit :=
  { dimensions := some 2,
    vectors := [("v1", unitVec (9 / 10)), ("v2", unitVec (19 / 20)),
                ("v3", unitVec (1 / 5)), ("v4", unitVec (19 / 20))],
    metadata := [],
    initialized := true }

/-- The query vector for the top-K example. -/
noncomputable def c3Query : List ℝ := [1, 0]

/-- Per-file outcome oracle for the partial-failure example: file `"f3"`'s
read rejects, every other file fulfills. -/
def c4Outcome (filePath : String) : Except String IndexDetail :=
  if filePath = "f3" then .error "Failed to read file f3: file too large"
  else .ok { path := filePath, success := true, error := none, size := some 3, timestamp := some 0 }

/-- The five resolved paths of the partial-failure example. -/
def c4Files : List String := ["f1", "f2", "f3", "f4", "f5"]

/-- A view-tool oracle that always succeeds with fixed content. -/
def c7View : String → Except String ViewData :=
  fun _ => .ok { content := "hello", metadata := { size := 5, encoding := "utf8", timestamp := 0 } }

/-- A concrete embedding function for the batch-order witness. -/
def c5Embed (t : List Char) : List ℝ := [(t.length : ℝ)]

/-! ## Theorems -/

/-- C1: on a store whose dimension is already fixed at `D`, `storeVector` with
a valid id and a non-empty vector of a different length fails with a
dimension-mismatch error and performs no mutation: the returned store — its
records, vectors, metadata and dimension — is exactly the input store. -/
theorem storeVector_dimension_mismatch_no_mutation {μ : Type} (s : VectorStore μ)
    (id : String) (vector : List ℝ) (md : μ) (now D : Nat)
    (hinit : s.initialized = true) (hD : s.dimensions = some D)
    (hid : id ≠ "") (hvec : vector ≠ []) (hlen : vector.length ≠ D) :
    storeVector s id vector md now = (s, .error (.dimensionMismatch D vector.length)) := by
  obtain ⟨d0, v0, m0, i0⟩ := s
  simp only at hinit hD
  subst hinit hD
  have hv0 : vector.length ≠ 0 := fun h => hvec (List.length_eq_zero.mp h)
  simp [storeVector, hid, hv0, hlen]

/-- C1 witness: storing a 3-length vector into a fresh store and then a
5-length vector fails with the mismatch error and leaves the store holding
exactly the one original record, as `getAllVectors` reports. -/
theorem storeVector_dimension_mismatch_no_mutation_witness :
    (storeVector (storeVector emptyStore "v1" [1, 2, 3] () 0).1 "v2" [1, 2, 3, 4, 5] () 1
      = ((storeVector emptyStore "v1" [1, 2, 3] () 0).1,
          .error (.dimensionMismatch 3 5))) ∧
    getAllVectors (storeVector emptyStore "v1" [1, 2, 3] () 0).1
      = .ok [{ id := "v1", vector := [1, 2, 3], metadata := some ⟨(), 0⟩ }] := by
  have hs1 : (storeVector emptyStore "v1" [1, 2, 3] () 0).1
      = { dimensions := some 3, vectors := [("v1", [1, 2, 3])],
          metadata := [("v1", ⟨(), 0⟩)], initialized := true } := by
    simp [storeVector, emptyStore, setEntry]
  constructor
  · rw [hs1]
    exact storeVector_dimension_mismatch_no_mutation _ "v2" [1, 2, 3, 4, 5] () 1 3
      rfl rfl (by decide) (by simp) (by simp)
  · rw [hs1]
    simp [getAllVectors, getEntry]

/-- C9: on an initialized store in which no vector has ever been stored (the
dimension is still unfixed and the vector map is empty), `findSimilar` accepts
a query vector of any positive length and returns the empty result list. -/
theorem findSimilar_unfixed_dimension_empty {μ : Type} (s : VectorStore μ)
    (q : List ℝ) (limit : Nat) (threshold : ℝ)
    (hinit : s.initialized = true) (hdim : s.dimensions = none)
    (hvecs : s.vectors = []) (hq : q ≠ []) :
    findSimilar s q limit threshold = .ok [] := by
  have hq0 : q.length ≠ 0 := fun h => hq (List.length_eq_zero.mp h)
  simp [findSimilar, hinit, hq0, hdim, queryDimensionBad, collectSimilarities, hvecs,
    sortBySimilarityDesc]

/-- C9 witness: the fresh empty store accepts a 3-length query (no stored
vector ever fixed a dimension) and returns no results. -/
theorem findSimilar_unfixed_dimension_empty_witness :
    findSimilar emptyStore [1, 2, 3] 10 (1 / 2) = .ok [] :=
  findSimilar_unfixed_dimension_empty emptyStore [1, 2, 3] 10 (1 / 2)
    rfl rfl rfl (by simp)

/-- The similarity loop's accumulator, started from an arbitrary seed, adds
the dot product and the two sums of squares (equal-length vectors). -/
lemma cosineAccum_foldl (a : List ℝ) :
    ∀ (b : List ℝ) (d na nb : ℝ), a.length = b.length →
      (List.zip a b).foldl
          (fun acc p => (acc.1 + p.1 * p.2, acc.2.1 + p.1 * p.1, acc.2.2 + p.2 * p.2))
          (d, na, nb)
        = (d + specDot a b, na + specNormSq a, nb + specNormSq b) := by
  induction a with
  | nil =>
    intro b d na nb hlen
    obtain rfl : b = [] := (List.length_eq_zero.mp hlen.symm)
    simp [specDot, specNormSq]
  | cons x xs ih =>
    intro b d na nb hlen
    match b with
    | [] => simp at hlen
    | y :: ys =>
      have hl : xs.length = ys.length := by simpa using hlen
      simp only [List.zip_cons_cons, List.foldl_cons, ih ys _ _ _ hl]
      simp [specDot, specNormSq]
      refine ⟨by ring, by ring, by ring⟩

/-- The accumulator of `_calculateCosineSimilarity` computes exactly the dot
product and the squared norms for equal-length vectors. -/
lemma cosineAccum_spec (a b : List ℝ) (hlen : a.length = b.length) :
    cosineAccum a b = (specDot a b, specNormSq a, specNormSq b) := by
  simpa using cosineAccum_foldl a b 0 0 0 hlen

/-- C2: for equal-length vectors the store's similarity is
`dot(a,b) / (|a| * |b|)` except that it is `0` whenever either norm is `0`;
in particular `similarity([1,0],[1,0]) = 1` and `similarity([1,0],[0,1]) = 0`,
both within tolerance `1e-9`. -/
theorem calculateCosineSimilarity_spec :
    (∀ a b : List ℝ, a.length = b.length →
      calculateCosineSimilarity a b =
        if specNorm a = 0 ∨ specNorm b = 0 then 0
        else specDot a b / (specNorm a * specNorm b)) ∧
    |calculateCosineSimilarity [1, 0] [1, 0] - 1| ≤ 1 / 1000000000 ∧
    |calculateCosineSimilarity [1, 0] [0, 1] - 0| ≤ 1 / 1000000000 := by
  refine ⟨fun a b hlen => ?_, ?_, ?_⟩
  · simp [calculateCosineSimilarity, cosineAccum_spec a b hlen, specNorm]
  · have h : calculateCosineSimilarity [1, 0] [1, 0] = 1 := by
      simp [calculateCosineSimilarity, cosineAccum]
    rw [h]
    norm_num
  · have h : calculateCosineSimilarity [1, 0] [0, 1] = 0 := by
      simp [calculateCosineSimilarity, cosineAccum]
    rw [h]
    norm_num

/-- C2 witness: the general formula instantiated at the equal-length pair
`[3, 4]`, `[5, 12]`. -/
theorem calculateCosineSimilarity_spec_witness :
    calculateCosineSimilarity [3, 4] [5, 12] =
      if specNorm [3, 4] = 0 ∨ specNorm [5, 12] = 0 then 0
      else specDot [3, 4] [5, 12] / (specNorm [3, 4] * specNorm [5, 12]) :=
  calculateCosineSimilarity_spec.1 [3, 4] [5, 12] rfl

/-- Membership in the stable insertion step. -/
lemma mem_insertBySimilarity {μ : Type} (x z : SimilarityResult μ) :
    ∀ l : List (SimilarityResult μ), z ∈ insertBySimilarity x l ↔ z = x ∨ z ∈ l := by
  intro l
  induction l with
  | nil => simp [insertBySimilarity]
  | cons y ys ih =>
    by_cases hc : y.similarity ≤ x.similarity
    · simp [insertBySimilarity, hc, List.mem_cons]
    · simp only [insertBySimilarity, if_neg hc, List.mem_cons, ih]
      tauto

/-- The insertion step grows the list by one. -/
lemma length_insertBySimilarity {μ : Type} (x : SimilarityResult μ) :
    ∀ l : List (SimilarityResult μ), (insertBySimilarity x l).length = l.length + 1 := by
  intro l
  induction l with
  | nil => simp [insertBySimilarity]
  | cons y ys ih =>
    by_cases hc : y.similarity ≤ x.similarity
    · simp [insertBySimilarity, hc]
    · simp [insertBySimilarity, hc, ih]

/-- The stable sort preserves length. -/
lemma length_sortBySimilarityDesc {μ : Type} :
    ∀ l : List (SimilarityResult μ), (sortBySimilarityDesc l).length = l.length := by
  intro l
  induction l with
  | nil => simp [sortBySimilarityDesc]
  | cons y ys ih => simp [sortBySimilarityDesc, length_insertBySimilarity, ih]

/-- The stable sort preserves membership. -/
lemma mem_sortBySimilarityDesc {μ : Type} (z : SimilarityResult μ) :
    ∀ l : List (SimilarityResult μ), z ∈ sortBySimilarityDesc l ↔ z ∈ l := by
  intro l
  induction l with
  | nil => simp [sortBySimilarityDesc]
  | cons y ys ih => simp [sortBySimilarityDesc, mem_insertBySimilarity, ih]

/-- Inserting into a descending-sorted list keeps it descending-sorted. -/
lemma pairwise_insertBySimilarity {μ : Type} (x : SimilarityResult μ) :
    ∀ l : List (SimilarityResult μ),
      l.Pairwise (fun a b => b.similarity ≤ a.similarity) →
      (insertBySimilarity x l).Pairwise (fun a b => b.similarity ≤ a.similarity) := by
  intro l
  induction l with
  | nil => intro _; simp [insertBySimilarity]
  | cons y ys ih =>
    intro h
    rw [List.pairwise_cons] at h
    obtain ⟨hy, hys⟩ := h
    by_cases hc : y.similarity ≤ x.similarity
    · simp only [insertBySimilarity, if_pos hc]
      refine List.Pairwise.cons ?_ (List.Pairwise.cons hy hys)
      intro z hz
      rcases List.mem_cons.mp hz with rfl | hz
      · exact hc
      · exact le_trans (hy z hz) hc
    · simp only [insertBySimilarity, if_neg hc]
      refine List.Pairwise.cons ?_ (ih hys)
      intro z hz
      rcases (mem_insertBySimilarity x z ys).mp hz with rfl | hz
      · exact le_of_not_le hc
      · exact hy z hz

/-- The stable sort really sorts: descending by similarity. -/
lemma pairwise_sortBySimilarityDesc {μ : Type} :
    ∀ l : List (SimilarityResult μ),
      (sortBySimilarityDesc l).Pairwise (fun a b => b.similarity ≤ a.similarity) := by
  intro l
  induction l with
  | nil => simp [sortBySimilarityDesc]
  | cons y ys ih => exact pairwise_insertBySimilarity y _ ih

/-- Every record kept by the threshold scan has similarity at least the
threshold. -/
lemma collectSimilarities_threshold {μ : Type} (s : VectorStore μ) (q : List ℝ) (thr : ℝ) :
    ∀ r ∈ collectSimilarities s q thr, thr ≤ r.similarity := by
  intro r hr
  simp only [collectSimilarities, List.mem_filterMap] at hr
  obtain ⟨p, _, hp⟩ := hr
  by_cases hc : thr ≤ calculateCosineSimilarity q p.2
  · rw [if_pos hc] at hp
    cases hp
    exact hc
  · rw [if_neg hc] at hp
    cases hp

/-- Cosine similarity of the query `[1, 0]` with the planar unit vector
`unitVec x` is exactly `x`. -/
lemma calculateCosineSimilarity_unitVec (x : ℝ) (hx : x * x ≤ 1) :
    calculateCosineSimilarity [1, 0] (unitVec x) = x := by
  have h0 : (0 : ℝ) ≤ 1 - x * x := by linarith
  have hs : Real.sqrt (1 - x * x) * Real.sqrt (1 - x * x) = 1 - x * x :=
    Real.mul_self_sqrt h0
  simp only [calculateCosineSimilarity, cosineAccum, unitVec, List.zip_cons_cons,
    List.zip_nil_right, List.foldl_cons, List.foldl_nil]
  norm_num [hs]

/-- Evaluation of the top-K example: the four stored vectors have similarities
`[0.9, 0.95, 0.2, 0.95]` to the query; with `limit = 2` and
`threshold = 0.5`, `findSimilar` returns the two `0.95`-tier records, the
first-inserted one first. -/
lemma c3_findSimilar_eval :
    findSimilar c3Store c3Query 2 (1 / 2)
      = .ok [{ id := "v2", similarity := 19 / 20, metadata := none },
             { id := "v4", similarity := 19 / 20, metadata := none }] := by
  have hq : c3Query = [1, 0] := rfl
  have h1 : calculateCosineSimilarity c3Query (unitVec (9 / 10)) = 9 / 10 := by
    rw [hq]; exact calculateCosineSimilarity_unitVec _ (by norm_num)
  have h2 : calculateCosineSimilarity c3Query (unitVec (19 / 20)) = 19 / 20 := by
    rw [hq]; exact calculateCosineSimilarity_unitVec _ (by norm_num)
  have h3 : calculateCosineSimilarity c3Query (unitVec (1 / 5)) = 1 / 5 := by
    rw [hq]; exact calculateCosineSimilarity_unitVec _ (by norm_num)
  have hcol : collectSimilarities c3Store c3Query (1 / 2)
      = [{ id := "v1", similarity := 9 / 10, metadata := none },
         { id := "v2", similarity := 19 / 20, metadata := none },
         { id := "v4", similarity := 19 / 20, metadata := none }] := by
    simp only [collectSimilarities, c3Store, List.filterMap_cons, List.filterMap_nil,
      h1, h2, h3]
    norm_num [getEntry]
  have hsort : sortBySimilarityDesc
        [{ id := "v1", similarity := (9 : ℝ) / 10, metadata := (none : Option (StoredMeta Unit)) },
         { id := "v2", similarity := 19 / 20, metadata := none },
         { id := "v4", similarity := 19 / 20, metadata := none }]
      = [{ id := "v2", similarity := 19 / 20, metadata := none },
         { id := "v4", similarity := 19 / 20, metadata := none },
         { id := "v1", similarity := 9 / 10, metadata := none }] := by
    norm_num [sortBySimilarityDesc, insertBySimilarity]
  have hinit : c3Store.initialized = true := rfl
  have hlen : c3Query.length = 2 := rfl
  have hdim : c3Store.dimensions = some 2 := rfl
  simp only [findSimilar, hinit, hlen, hdim, hcol, hsort]
  norm_num [queryDimensionBad, List.take]

/-- C3 counterexample: at the concrete four-vector store of the claim, with
`limit = 2` and `threshold = 0.5`, the result list is exactly the two
`0.95`-tier entries — only two results, and since `0.95 ≠ 0.9` neither is the
`0.9` entry, so the results are not "the two 0.95-tier and the 0.9 entries". -/
theorem findSimilar_limit_two_counterexample :
    findSimilar c3Store c3Query 2 (1 / 2)
      = .ok [{ id := "v2", similarity := 19 / 20, metadata := none },
             { id := "v4", similarity := 19 / 20, metadata := none }] ∧
    (19 : ℝ) / 20 ≠ 9 / 10 :=
  ⟨c3_findSimilar_eval, by norm_num⟩

/-- C3 (amended): `findSimilar` keeps exactly the stored records whose cosine
similarity to the query reaches the threshold, sorts them descending by
similarity with ties in insertion order, and returns at most `limit` results;
at the concrete store, with `limit = 2` and `threshold = 0.5`, the results are
exactly the two `0.95`-tier entries, the first-inserted one first (the `0.9`
entry is cut off by the limit). -/
theorem findSimilar_filter_sort_limit :
    (∀ (μ : Type) (s : VectorStore μ) (q : List ℝ) (limit : Nat) (thr : ℝ),
      s.initialized = true → q ≠ [] → queryDimensionBad s.dimensions q.length = false →
      findSimilar s q limit thr
          = .ok ((sortBySimilarityDesc (collectSimilarities s q thr)).take limit) ∧
        ((sortBySimilarityDesc (collectSimilarities s q thr)).take limit).length
          = min limit (collectSimilarities s q thr).length ∧
        ((sortBySimilarityDesc (collectSimilarities s q thr)).take limit).Pairwise
          (fun a b => b.similarity ≤ a.similarity) ∧
        (∀ r ∈ (sortBySimilarityDesc (collectSimilarities s q thr)).take limit,
          thr ≤ r.similarity)) ∧
    findSimilar c3Store c3Query 2 (1 / 2)
      = .ok [{ id := "v2", similarity := 19 / 20, metadata := none },
             { id := "v4", similarity := 19 / 20, metadata := none }] := by
  refine ⟨fun μ s q limit thr hinit hq hdim => ?_, c3_findSimilar_eval⟩
  have hq0 : q.length ≠ 0 := fun h => hq (List.length_eq_zero.mp h)
  refine ⟨by simp [findSimilar, hinit, hq0, hdim], ?_, ?_, ?_⟩
  · rw [List.length_take, length_sortBySimilarityDesc]
  · exact List.Pairwise.sublist (List.take_sublist _ _) (pairwise_sortBySimilarityDesc _)
  · intro r hr
    have hr' : r ∈ sortBySimilarityDesc (collectSimilarities s q thr) :=
      (List.take_sublist _ _).subset hr
    exact collectSimilarities_threshold s q thr r ((mem_sortBySimilarityDesc r _).mp hr')

/-- C3 witness for the amended claim: the general part instantiated at the
concrete store and query, hypotheses discharged by evaluation. -/
theorem findSimilar_filter_sort_limit_witness :
    findSimilar c3Store c3Query 2 (1 / 2)
      = .ok ((sortBySimilarityDesc (collectSimilarities c3Store c3Query (1 / 2))).take 2) :=
  (findSimilar_filter_sort_limit.1 Unit c3Store c3Query 2 (1 / 2) rfl
    (by simp [c3Query]) rfl).1

/-- Unfolding `chunksOf` on the empty list. -/
lemma chunksOf_nil {α : Type _} (k : Nat) : chunksOf k ([] : List α) = [] := by
  simp [chunksOf]

/-- Unfolding `chunksOf` on a non-empty list (positive chunk size). -/
lemma chunksOf_cons {α : Type _} (k : Nat) (hk : k ≠ 0) (x : α) (xs : List α) :
    chunksOf k (x :: xs) = (x :: xs).take k :: chunksOf k ((x :: xs).drop k) := by
  rw [chunksOf]
  simp [hk]

/-- Concatenating the chunks gives back the original list. -/
lemma chunksOf_flatten {α : Type _} (k : Nat) (hk : k ≠ 0) :
    ∀ (n : Nat) (l : List α), l.length ≤ n → (chunksOf k l).flatten = l := by
  intro n
  induction n with
  | zero =>
    intro l hl
    obtain rfl : l = [] := by cases l with
      | nil => rfl
      | cons x xs => simp at hl
    rw [chunksOf_nil k]
    rfl
  | succ n ih =>
    intro l hl
    match l with
    | [] =>
      rw [chunksOf_nil k]
      rfl
    | x :: xs =>
      have hrec : ((x :: xs).drop k).length ≤ n := by
        have hk1 : 1 ≤ k := Nat.pos_of_ne_zero hk
        simp only [List.length_drop, List.length_cons] at *
        omega
      rw [chunksOf_cons k hk, List.flatten_cons, ih ((x :: xs).drop k) hrec,
        List.take_append_drop]

/-- The per-file fold over an arbitrary file list, from an arbitrary running
report: pattern and total are untouched; the counters add the numbers of
fulfilled and rejected outcomes; the details append one entry per file in
file-list order. -/
lemma foldFile_foldl_spec (outcome : String → Except String IndexDetail) :
    ∀ (files : List String) (r : IndexingReport),
      (files.foldl (foldFile outcome) r).pattern = r.pattern ∧
      (files.foldl (foldFile outcome) r).totalFiles = r.totalFiles ∧
      (files.foldl (foldFile outcome) r).processedFiles
        = r.processedFiles + (files.filter (fun f => (outcome f).isOk)).length ∧
      (files.foldl (foldFile outcome) r).failedFiles
        = r.failedFiles + (files.filter (fun f => !(outcome f).isOk)).length ∧
      (files.foldl (foldFile outcome) r).details = r.details ++ files.map (detailOf outcome) := by
  intro files
  induction files with
  | nil => intro r; simp
  | cons f fs ih =>
    intro r
    obtain ⟨hp, ht, hproc, hfail, hdet⟩ := ih (foldFile outcome r f)
    simp only [List.foldl_cons, List.filter_cons, List.map_cons]
    cases hf : outcome f with
    | ok d =>
      refine ⟨?_, ?_, ?_, ?_, ?_⟩
      · rw [hp]; simp [foldFile, hf]
      · rw [ht]; simp [foldFile, hf]
      · rw [hproc]; simp [foldFile, hf, Except.isOk, Except.toBool]; omega
      · rw [hfail]; simp [foldFile, hf, Except.isOk, Except.toBool]
      · rw [hdet]; simp [foldFile, hf, detailOf, List.append_assoc]
    | error msg =>
      refine ⟨?_, ?_, ?_, ?_, ?_⟩
      · rw [hp]; simp [foldFile, hf]
      · rw [ht]; simp [foldFile, hf]
      · rw [hproc]; simp [foldFile, hf, Except.isOk, Except.toBool]
      · rw [hfail]; simp [foldFile, hf, Except.isOk, Except.toBool]; omega
      · rw [hdet]; simp [foldFile, hf, detailOf, List.append_assoc]

/-- The batched aggregation equals the flat per-file fold: batching only
groups the same per-file steps. -/
lemma indexFilesReport_eq_foldl (outcome : String → Except String IndexDetail)
    (pattern : String) (files : List String) :
    indexFilesReport outcome pattern files
      = files.foldl (foldFile outcome)
          { pattern := pattern, totalFiles := files.length, processedFiles := 0,
            failedFiles := 0, details := [] } := by
  unfold indexFilesReport foldBatch
  rw [← List.foldl_flatten, chunksOf_flatten 10 (by omega) files.length files le_rfl]

/-- The completed-report shape of `indexFilesReport`, for any outcome oracle. -/
lemma indexFilesReport_spec (outcome : String → Except String IndexDetail)
    (pattern : String) (files : List String) :
    (indexFilesReport outcome pattern files).totalFiles = files.length ∧
    (indexFilesReport outcome pattern files).processedFiles
        + (indexFilesReport outcome pattern files).failedFiles = files.length ∧
    (indexFilesReport outcome pattern files).details = files.map (detailOf outcome) := by
  rw [indexFilesReport_eq_foldl]
  obtain ⟨hp, ht, hproc, hfail, hdet⟩ := foldFile_foldl_spec outcome files
    { pattern := pattern, totalFiles := files.length, processedFiles := 0,
      failedFiles := 0, details := [] }
  refine ⟨ht, ?_, by simpa using hdet⟩
  rw [hproc, hfail]
  simp only [Nat.zero_add]
  have := List.length_eq_length_filter_add (l := files) (fun f => (outcome f).isOk)
  omega

/-- C4: on completion, `processedFiles + failedFiles = totalFiles` with
`totalFiles` the number of resolved paths; `details` holds exactly one entry
per file in file-list order (the fulfilled detail, or a failure entry carrying
the rejection message); and on the concrete five-file run whose third file's
read fails, the report is `processedFiles = 4`, `failedFiles = 1`, with the
lone failed detail at position 3 carrying the read error while the four
sibling files are marked succeeded. -/
theorem indexFilesReport_invariant :
    (∀ (outcome : String → Except String IndexDetail) (pattern : String) (files : List String),
      (indexFilesReport outcome pattern files).totalFiles = files.length ∧
      (indexFilesReport outcome pattern files).processedFiles
          + (indexFilesReport outcome pattern files).failedFiles = files.length ∧
      (indexFilesReport outcome pattern files).details = files.map (detailOf outcome)) ∧
    (indexFilesReport c4Outcome "*.md" c4Files).totalFiles = 5 ∧
    (indexFilesReport c4Outcome "*.md" c4Files).processedFiles = 4 ∧
    (indexFilesReport c4Outcome "*.md" c4Files).failedFiles = 1 ∧
    (indexFilesReport c4Outcome "*.md" c4Files).details
      = [{ path := "f1", success := true, error := none, size := some 3, timestamp := some 0 },
         { path := "f2", success := true, error := none, size := some 3, timestamp := some 0 },
         mkFailDetail "f3" "Failed to read file f3: file too large",
         { path := "f4", success := true, error := none, size := some 3, timestamp := some 0 },
         { path := "f5", success := true, error := none, size := some 3, timestamp := some 0 }] := by
  refine ⟨indexFilesReport_spec, ?_, ?_, ?_, ?_⟩
  · exact (indexFilesReport_spec c4Outcome "*.md" c4Files).1
  · rw [indexFilesReport_eq_foldl]
    have h := (foldFile_foldl_spec c4Outcome c4Files
      { pattern := "*.md", totalFiles := c4Files.length, processedFiles := 0,
        failedFiles := 0, details := [] }).2.2.1
    rw [h]
    simp [c4Files, c4Outcome, Except.isOk, Except.toBool]
  · rw [indexFilesReport_eq_foldl]
    have h := (foldFile_foldl_spec c4Outcome c4Files
      { pattern := "*.md", totalFiles := c4Files.length, processedFiles := 0,
        failedFiles := 0, details := [] }).2.2.2.1
    rw [h]
    simp [c4Files, c4Outcome, Except.isOk, Except.toBool]
  · rw [(indexFilesReport_spec c4Outcome "*.md" c4Files).2.2]
    simp [c4Files, c4Outcome, detailOf]

/-- Batch generation under a pointwise-consistent API oracle (constrained only
on requests within the batch-size limit): the result is the per-text
embeddings in input order. Stated with an explicit length bound for the
induction. -/
lemma generateBatchEmbeddings_ok (svc : EmbeddingService)
    (capi : List (List Char) → Except String (List (List ℝ)))
    (hk : 0 < svc.maxBatchSize) (f : List Char → List ℝ)
    (hinit : svc.initialized = true)
    (hcapi : ∀ ts, ts.length ≤ svc.maxBatchSize → capi ts = .ok (ts.map f)) :
    ∀ (n : Nat) (texts : List (List Char)), texts.length ≤ n → texts ≠ [] →
      generateBatchEmbeddings svc capi hk texts
        = .ok (texts.map (fun t => f (preprocessText t))) := by
  intro n
  induction n with
  | zero =>
    intro texts hlen hne
    cases texts with
    | nil => exact absurd rfl hne
    | cons t ts => simp at hlen
  | succ n ih =>
    intro texts hlen hne
    have hlen0 : texts.length ≠ 0 := fun h => hne (List.length_eq_zero.mp h)
    rw [generateBatchEmbeddings, hinit]
    by_cases hgt : svc.maxBatchSize < texts.length
    · have htake : texts.take svc.maxBatchSize ≠ [] := by
        simp only [ne_eq, List.take_eq_nil_iff, not_or]
        exact ⟨Nat.pos_iff_ne_zero.mp hk, hne⟩
      have hdrop : texts.drop svc.maxBatchSize ≠ [] := by
        simp only [ne_eq, List.drop_eq_nil_iff, not_le]
        exact hgt
      have hlt : (texts.take svc.maxBatchSize).length ≤ n := by
        rw [List.length_take]
        omega
      have hld : (texts.drop svc.maxBatchSize).length ≤ n := by
        rw [List.length_drop]
        omega
      simp only [Bool.true_eq_false, if_false, hlen0, dif_pos hgt,
        ih _ hlt htake, ih _ hld hdrop]
      show Except.ok _ = _
      rw [← List.map_append, List.take_append_drop]
    · have hle : (texts.map preprocessText).length ≤ svc.maxBatchSize := by
        rw [List.length_map]
        omega
      simp only [Bool.true_eq_false, if_false, hlen0, dif_neg hgt, hcapi _ hle]
      simp [Except.mapError, List.map_map, Function.comp]

/-- C5: when the API returns, for every request within the batch-size limit,
one embedding per text in request order, `generateBatchEmbeddings` on any
non-empty input returns exactly one embedding per input text in input order —
the n-th output vector is the embedding of the n-th (preprocessed) input text,
regardless of how the input was chunked. -/
theorem generateBatchEmbeddings_chunking_order (svc : EmbeddingService)
    (capi : List (List Char) → Except String (List (List ℝ)))
    (hk : 0 < svc.maxBatchSize) (f : List Char → List ℝ)
    (texts : List (List Char))
    (hinit : svc.initialized = true) (hne : texts ≠ [])
    (hcapi : ∀ ts, ts.length ≤ svc.maxBatchSize → capi ts = .ok (ts.map f)) :
    generateBatchEmbeddings svc capi hk texts
      = .ok (texts.map (fun t => f (preprocessText t))) :=
  generateBatchEmbeddings_ok svc capi hk f hinit hcapi texts.length texts le_rfl hne

/-- C5 witness: `maxBatchSize = 1` with input `["a", "b", "c"]` — three
single-item requests, outputs concatenated in input order. -/
theorem generateBatchEmbeddings_chunking_order_witness :
    generateBatchEmbeddings { maxBatchSize := 1, initialized := true }
        (fun ts => .ok (ts.map c5Embed)) Nat.one_pos [['a'], ['b'], ['c']]
      = .ok ([['a'], ['b'], ['c']].map (fun t => c5Embed (preprocessText t))) ∧
    [['a'], ['b'], ['c']].map (fun t => c5Embed (preprocessText t)) = [[1], [1], [1]] := by
  constructor
  · exact generateBatchEmbeddings_chunking_order { maxBatchSize := 1, initialized := true }
      (fun ts => .ok (ts.map c5Embed)) Nat.one_pos c5Embed [['a'], ['b'], ['c']]
      rfl (by simp) (fun ts _ => rfl)
  · have hp : ∀ c : Char, isJsWhitespace c = false →
        preprocessText [c] = [c] := by
      intro c hc
      have hnil : collapseWs [] = [] := by simp [collapseWs]
      have hone : collapseWs [c] = [c] := by
        rw [collapseWs]
        simp [hc, hnil]
      simp [preprocessText, maxTextLength, jsTrim, List.dropWhile, hc, hone]
    simp [hp 'a' rfl, hp 'b' rfl, hp 'c' rfl, c5Embed]

/-- Binding an `Except` error short-circuits. -/
lemma except_error_bind {ε α β : Type _} (e : ε) (k : α → Except ε β) :
    (Except.error e >>= k) = Except.error e := rfl

/-- Binding an `Except` success applies the continuation. -/
lemma except_ok_bind {ε α β : Type _} (a : α) (k : α → Except ε β) :
    (Except.ok a >>= k) = k a := rfl

/-- Mapping over an `Except` error short-circuits. -/
lemma except_map_error {ε α β : Type _} (e : ε) (g : α → β) :
    (g <$> (Except.error e : Except ε α)) = Except.error e := rfl

/-- Mapping over an `Except` success applies the function. -/
lemma except_map_ok {ε α β : Type _} (a : α) (g : α → β) :
    (g <$> (Except.ok a : Except ε α)) = Except.ok (g a) := rfl

/-- Lemma: `generateBatchEmbeddings` never fails with the invalid-input error on a
non-empty batch: element-level validation does not exist. Stated with an
explicit length bound for the induction. -/
lemma generateBatchEmbeddings_ne_invalidInput (svc : EmbeddingService)
    (capi : List (List Char) → Except String (List (List ℝ)))
    (hk : 0 < svc.maxBatchSize) (hinit : svc.initialized = true) :
    ∀ (n : Nat) (texts : List (List Char)), texts.length ≤ n → texts ≠ [] →
      generateBatchEmbeddings svc capi hk texts ≠ .error .invalidInput := by
  intro n
  induction n with
  | zero =>
    intro texts hlen hne
    cases texts with
    | nil => exact absurd rfl hne
    | cons t ts => simp at hlen
  | succ n ih =>
    intro texts hlen hne
    have hlen0 : texts.length ≠ 0 := fun h => hne (List.length_eq_zero.mp h)
    rw [generateBatchEmbeddings, hinit]
    by_cases hgt : svc.maxBatchSize < texts.length
    · have htake : texts.take svc.maxBatchSize ≠ [] := by
        simp only [ne_eq, List.take_eq_nil_iff, not_or]
        exact ⟨Nat.pos_iff_ne_zero.mp hk, hne⟩
      have hdrop : texts.drop svc.maxBatchSize ≠ [] := by
        simp only [ne_eq, List.drop_eq_nil_iff, not_le]
        exact hgt
      have hlt : (texts.take svc.maxBatchSize).length ≤ n := by
        rw [List.length_take]
        omega
      have hld : (texts.drop svc.maxBatchSize).length ≤ n := by
        rw [List.length_drop]
        omega
      simp only [Bool.true_eq_false, if_false, hlen0, dif_pos hgt]
      cases h1 : generateBatchEmbeddings svc capi hk (texts.take svc.maxBatchSize) with
      | error e =>
        have he : e ≠ .invalidInput := fun he => ih _ hlt htake (he ▸ h1)
        rw [except_error_bind]
        exact fun hcontra => he (Except.error.inj hcontra)
      | ok a =>
        rw [except_ok_bind]
        cases h2 : generateBatchEmbeddings svc capi hk (texts.drop svc.maxBatchSize) with
        | error e =>
          have he : e ≠ .invalidInput := fun he => ih _ hld hdrop (he ▸ h2)
          rw [except_error_bind]
          exact fun hcontra => he (Except.error.inj hcontra)
        | ok b =>
          rw [except_ok_bind]
          exact fun hcontra => Except.noConfusion hcontra
    · simp only [Bool.true_eq_false, if_false, hlen0, dif_neg hgt]
      cases hc : capi (texts.map preprocessText) with
      | error e => simp [Except.mapError, hc]
      | ok v => simp [Except.mapError, hc]

/-- C10: `generateBatchEmbeddings` validates only that its argument is a
non-empty array — it never raises the invalid-input error on a non-empty
batch, even one containing an empty string — while `generateEmbedding`
rejects the empty string with the invalid-input error. -/
theorem batch_vs_single_input_validation :
    (∀ (svc : EmbeddingService) (capi : List (List Char) → Except String (List (List ℝ)))
        (hk : 0 < svc.maxBatchSize) (texts : List (List Char)),
      svc.initialized = true → texts ≠ [] →
      generateBatchEmbeddings svc capi hk texts ≠ .error .invalidInput) ∧
    (∀ (svc : EmbeddingService) (capi : List Char → Except String (List ℝ)),
      svc.initialized = true → generateEmbedding svc capi [] = .error .invalidInput) := by
  constructor
  · intro svc capi hk texts hinit hne
    exact generateBatchEmbeddings_ne_invalidInput svc capi hk hinit texts.length texts
      le_rfl hne
  · intro svc capi hinit
    simp [generateEmbedding, hinit]

/-- C10 witness: a batch consisting of one empty string is not rejected as
invalid input, while `generateEmbedding` on the empty string is. -/
theorem batch_vs_single_input_validation_witness :
    generateBatchEmbeddings { maxBatchSize := 1, initialized := true }
        (fun _ => .error "upstream") Nat.one_pos [[]]
      ≠ .error .invalidInput ∧
    generateEmbedding { maxBatchSize := 1, initialized := true }
        (fun _ => .error "upstream") []
      = .error .invalidInput :=
  ⟨batch_vs_single_input_validation.1 _ _ Nat.one_pos [[]] rfl (by simp),
    batch_vs_single_input_validation.2 _ _ rfl⟩

/-- Unfolding `collapseWs` on the empty list. -/
lemma collapseWs_nil : collapseWs [] = [] := by
  simp [collapseWs]

/-- Unfolding `collapseWs` on a leading whitespace character. -/
lemma collapseWs_cons_ws (c : Char) (cs : List Char) (hc : isJsWhitespace c = true) :
    collapseWs (c :: cs) = ' ' :: collapseWs (cs.dropWhile isJsWhitespace) := by
  rw [collapseWs]
  simp [hc]

/-- Unfolding `collapseWs` on a leading non-whitespace character. -/
lemma collapseWs_cons_not (c : Char) (cs : List Char) (hc : isJsWhitespace c = false) :
    collapseWs (c :: cs) = c :: collapseWs cs := by
  rw [collapseWs]
  simp [hc]

/-- Collapsing whitespace never lengthens the list. -/
lemma length_collapseWs_le : ∀ l : List Char, (collapseWs l).length ≤ l.length := by
  intro l
  induction l using collapseWs.induct with
  | case1 => simp [collapseWs_nil]
  | case2 c cs hc ih =>
    rw [collapseWs_cons_ws c cs hc]
    simp only [List.length_cons, Nat.add_le_add_iff_right]
    exact le_trans ih (List.dropWhile_sublist _).length_le
  | case3 c cs hc ih =>
    rw [collapseWs_cons_not c cs (by simpa using hc)]
    simpa using ih

/-- Collapsing whitespace never empties a non-empty list. -/
lemma collapseWs_ne_nil (l : List Char) (h : l ≠ []) : collapseWs l ≠ [] := by
  match l with
  | [] => exact absurd rfl h
  | c :: cs =>
    cases hc : isJsWhitespace c with
    | true => rw [collapseWs_cons_ws c cs hc]; simp
    | false => rw [collapseWs_cons_not c cs hc]; simp

/-- Dropping leading whitespace leaves no leading whitespace. -/
lemma noLeadWs_dropWhile : ∀ l : List Char, noLeadWs (l.dropWhile isJsWhitespace) := by
  intro l
  induction l with
  | nil => intro c hc; simp at hc
  | cons x xs ih =>
    cases hx : isJsWhitespace x with
    | true => rw [List.dropWhile_cons_of_pos (by simp [hx])]; exact ih
    | false =>
      rw [List.dropWhile_cons_of_neg (by simp [hx])]
      intro c hc
      obtain rfl : x = c := by simpa using hc
      exact hx

/-- A prefix of a list with no leading whitespace has no leading whitespace. -/
lemma noLeadWs_of_prefix (l₁ l₂ : List Char) (hp : l₁ <+: l₂) (h : noLeadWs l₂) :
    noLeadWs l₁ := by
  obtain ⟨t, rfl⟩ := hp
  intro c hc
  cases l₁ with
  | nil => simp at hc
  | cons x xs =>
    obtain rfl : x = c := by simpa using hc
    exact h x (by simp)

/-- A suffix of a list with no trailing whitespace has no trailing
whitespace. -/
lemma noTrailWs_of_suffix (l₁ l₂ : List Char) (hs : l₁ <:+ l₂) (h : noTrailWs l₂) :
    noTrailWs l₁ :=
  noLeadWs_of_prefix l₁.reverse l₂.reverse (List.reverse_prefix.mpr hs) h

/-- The trimmed string has no leading whitespace. -/
lemma noLeadWs_jsTrim (l : List Char) : noLeadWs (jsTrim l) := by
  have hp : jsTrim l <+: l.dropWhile isJsWhitespace := by
    have := List.dropWhile_suffix (l := (l.dropWhile isJsWhitespace).reverse)
      isJsWhitespace
    have h2 := List.reverse_prefix.mpr this
    rwa [List.reverse_reverse] at h2
  exact noLeadWs_of_prefix _ _ hp (noLeadWs_dropWhile l)

/-- The trimmed string has no trailing whitespace. -/
lemma noTrailWs_jsTrim (l : List Char) : noTrailWs (jsTrim l) := by
  show noLeadWs (jsTrim l).reverse
  unfold jsTrim
  rw [List.reverse_reverse]
  exact noLeadWs_dropWhile _

/-- Collapsing preserves the absence of leading whitespace. -/
lemma noLeadWs_collapseWs (l : List Char) (h : noLeadWs l) : noLeadWs (collapseWs l) := by
  match l with
  | [] => rw [collapseWs_nil]; exact h
  | c :: cs =>
    have hc : isJsWhitespace c = false := h c (by simp)
    rw [collapseWs_cons_not c cs hc]
    intro d hd
    obtain rfl : c = d := by simpa using hd
    exact hc

/-- If there is no leading whitespace, dropping leading whitespace does
nothing. -/
lemma dropWhile_eq_self_of_noLead (l : List Char) (h : noLeadWs l) :
    l.dropWhile isJsWhitespace = l := by
  cases l with
  | nil => rfl
  | cons c cs =>
    rw [List.dropWhile_cons_of_neg]
    simp [h c (by simp)]

/-- A non-empty list with no trailing whitespace survives `dropWhile`. -/
lemma dropWhile_ne_nil_of_noTrail (l : List Char) (h : noTrailWs l) (hne : l ≠ []) :
    l.dropWhile isJsWhitespace ≠ [] := by
  intro hcontra
  have hall : ∀ x ∈ l, isJsWhitespace x := by
    simpa using List.dropWhile_eq_nil_iff.mp hcontra
  obtain ⟨d, t, ht⟩ := List.exists_cons_of_ne_nil (l := l.reverse) (by simpa using hne)
  have hd : isJsWhitespace d = false := h d (by rw [ht]; rfl)
  have hd' : d ∈ l := by
    have : d ∈ l.reverse := by rw [ht]; simp
    simpa using this
  simp [hall d hd'] at hd

/-- Collapsing preserves the absence of trailing whitespace. -/
lemma noTrailWs_collapseWs : ∀ l : List Char, noTrailWs l → noTrailWs (collapseWs l) := by
  intro l
  induction l using collapseWs.induct with
  | case1 => intro h; rw [collapseWs_nil]; exact h
  | case2 c cs hc ih =>
    intro h
    have hcs_ne : cs ≠ [] := by
      rintro rfl
      have := h c (by simp)
      simp [this] at hc
    have hcs : noTrailWs cs := noTrailWs_of_suffix cs (c :: cs) (List.suffix_cons c cs) h
    have hs_ne : cs.dropWhile isJsWhitespace ≠ [] :=
      dropWhile_ne_nil_of_noTrail cs hcs hcs_ne
    have hs : noTrailWs (cs.dropWhile isJsWhitespace) :=
      noTrailWs_of_suffix _ cs (List.dropWhile_suffix _) hcs
    have hcoll := ih hs
    have hcoll_ne := collapseWs_ne_nil _ hs_ne
    rw [collapseWs_cons_ws c cs hc]
    intro d hd
    rw [List.reverse_cons, List.head?_append] at hd
    have hrev_ne : (collapseWs (cs.dropWhile isJsWhitespace)).reverse ≠ [] := by
      simpa using hcoll_ne
    obtain ⟨e, t, het⟩ := List.exists_cons_of_ne_nil hrev_ne
    rw [het] at hd
    simp only [List.head?_cons, Option.or_some] at hd
    obtain rfl : e = d := by simpa using hd
    exact hcoll e (by rw [het]; rfl)
  | case3 c cs hc ih =>
    intro h
    have hc' : isJsWhitespace c = false := by simpa using hc
    rw [collapseWs_cons_not c cs hc']
    cases hcs0 : cs with
    | nil =>
      rw [collapseWs_nil]
      intro d hd
      obtain rfl : c = d := by simpa using hd
      exact hc'
    | cons c2 cs2 =>
      rw [← hcs0]
      have hcs_ne : cs ≠ [] := by rw [hcs0]; simp
      have hcs : noTrailWs cs := noTrailWs_of_suffix cs (c :: cs) (List.suffix_cons c cs) h
      have hcoll := ih hcs
      have hcoll_ne := collapseWs_ne_nil cs hcs_ne
      intro d hd
      rw [List.reverse_cons, List.head?_append] at hd
      have hrev_ne : (collapseWs cs).reverse ≠ [] := by simpa using hcoll_ne
      obtain ⟨e, t, het⟩ := List.exists_cons_of_ne_nil hrev_ne
      rw [het] at hd
      simp only [List.head?_cons, Option.or_some] at hd
      obtain rfl : e = d := by simpa using hd
      exact hcoll e (by rw [het]; rfl)

/-- The output of `collapseWs` is fully collapsed. -/
lemma wsCollapsed_collapseWs : ∀ l : List Char, wsCollapsed (collapseWs l) = true := by
  intro l
  induction l using collapseWs.induct with
  | case1 => rw [collapseWs_nil]; rfl
  | case2 c cs hc ih =>
    rw [collapseWs_cons_ws c cs hc]
    have hlead : noLeadWs (collapseWs (cs.dropWhile isJsWhitespace)) :=
      noLeadWs_collapseWs _ (noLeadWs_dropWhile cs)
    cases hX : collapseWs (cs.dropWhile isJsWhitespace) with
    | nil => rfl
    | cons d rest =>
      have hd : isJsWhitespace d = false := by
        have := hlead d (by rw [hX]; rfl)
        exact this
      rw [hX] at ih
      simp [wsCollapsed, hd, ih]
  | case3 c cs hc ih =>
    have hc' : isJsWhitespace c = false := by simpa using hc
    rw [collapseWs_cons_not c cs hc']
    cases hX : collapseWs cs with
    | nil => simp [wsCollapsed, hc']
    | cons d rest =>
      rw [hX] at ih
      simp [wsCollapsed, hc', ih]

/-- Identity: `collapseWs` fixes fully collapsed lists. -/
lemma collapseWs_of_wsCollapsed : ∀ l : List Char, wsCollapsed l = true → collapseWs l = l := by
  intro l
  induction l with
  | nil => intro _; exact collapseWs_nil
  | cons c cs ih =>
    intro h
    cases hcs0 : cs with
    | nil =>
      subst hcs0
      cases hc : isJsWhitespace c with
      | false => rw [collapseWs_cons_not c [] hc, collapseWs_nil]
      | true =>
        have hsp : c = ' ' := by
          simp [wsCollapsed, hc] at h
          exact h
        rw [collapseWs_cons_ws c [] hc]
        simp [hsp, collapseWs_nil]
    | cons d cs2 =>
      subst hcs0
      simp only [wsCollapsed, Bool.and_eq_true, Bool.or_eq_true] at h
      obtain ⟨hhead, htail⟩ := h
      have htail' : collapseWs (d :: cs2) = d :: cs2 := ih htail
      cases hc : isJsWhitespace c with
      | false => rw [collapseWs_cons_not c _ hc, htail']
      | true =>
        rcases hhead with hfalse | ⟨hsp, hd⟩
        · simp [hc] at hfalse
        · have hsp' : c = ' ' := by simpa using hsp
          have hd' : isJsWhitespace d = false := by simpa using hd
          rw [collapseWs_cons_ws c _ hc, List.dropWhile_cons_of_neg (by simp [hd']),
            htail', hsp']

/-- C6: the embedding service's text normalization — truncate to the maximum
length, trim, collapse whitespace runs to single spaces — is idempotent:
`normalize(normalize(x)) = normalize(x)` for every string `x`. -/
theorem preprocessText_idempotent (text : List Char) :
    preprocessText (preprocessText text) = preprocessText text := by
  have h1 : (preprocessText text).length ≤ maxTextLength := by
    have ha : (jsTrim (text.take maxTextLength)).length
        ≤ (text.take maxTextLength).length := by
      unfold jsTrim
      calc ((((text.take maxTextLength).dropWhile isJsWhitespace).reverse.dropWhile
              isJsWhitespace).reverse).length
          ≤ (((text.take maxTextLength).dropWhile isJsWhitespace).reverse).length := by
            rw [List.length_reverse]
            exact (List.dropWhile_sublist _).length_le
        _ ≤ ((text.take maxTextLength).dropWhile isJsWhitespace).length := by
            rw [List.length_reverse]
        _ ≤ (text.take maxTextLength).length := (List.dropWhile_sublist _).length_le
    have hb : (text.take maxTextLength).length ≤ maxTextLength := by
      rw [List.length_take]
      exact Nat.min_le_left _ _
    exact le_trans (length_collapseWs_le _) (le_trans ha hb)
  have htake : (preprocessText text).take maxTextLength = preprocessText text :=
    List.take_of_length_le h1
  have hlead : noLeadWs (preprocessText text) :=
    noLeadWs_collapseWs _ (noLeadWs_jsTrim _)
  have htrail : noTrailWs (preprocessText text) :=
    noTrailWs_collapseWs _ (noTrailWs_jsTrim _)
  have htrim : jsTrim (preprocessText text) = preprocessText text := by
    unfold jsTrim
    rw [dropWhile_eq_self_of_noLead _ hlead, dropWhile_eq_self_of_noLead _ htrail,
      List.reverse_reverse]
  have hcoll : collapseWs (preprocessText text) = preprocessText text :=
    collapseWs_of_wsCollapsed _ (wsCollapsed_collapseWs _)
  conv_lhs => rw [preprocessText]
  rw [htake, htrim, hcoll]

/-- C7: `readFile`'s cache lookup returns the cached content exactly when an
entry is present and `now - cachedAt < TTL`; an expired entry is evicted and a
fresh read performed; a missing entry goes straight to the fresh read; and a
fresh read that succeeds reports `fromCache: false` with the view tool's
content. -/
theorem readFile_cache_ttl :
    (∀ (a : FileAgentState) (view : String → Except String ViewData) (now : Nat)
        (path : String) (e : CacheEntry), path ≠ "" →
      getEntry a.fileCache path = some e → (now : ℤ) - (e.timestamp : ℤ) < (cacheTTL : ℤ) →
      readFile a view now path =
        (a, .ok { path := path, content := e.content, metadata := e.metadata,
                  fromCache := true })) ∧
    (∀ (a : FileAgentState) (view : String → Except String ViewData) (now : Nat)
        (path : String) (e : CacheEntry), path ≠ "" →
      getEntry a.fileCache path = some e →
      ¬((now : ℤ) - (e.timestamp : ℤ) < (cacheTTL : ℤ)) →
      readFile a view now path
        = freshRead { fileCache := removeEntry a.fileCache path } view now path) ∧
    (∀ (a : FileAgentState) (view : String → Except String ViewData) (now : Nat)
        (path : String), path ≠ "" →
      getEntry a.fileCache path = none →
      readFile a view now path = freshRead a view now path) ∧
    (∀ (a : FileAgentState) (view : String → Except String ViewData) (now : Nat)
        (path : String) (d : ViewData), view path = .ok d →
      (freshRead a view now path).2
        = .ok { path := path, content := d.content, metadata := d.metadata,
                fromCache := false }) := by
  refine ⟨?_, ?_, ?_, ?_⟩
  · intro a view now path e hpath hent hfresh
    simp only [readFile, if_neg hpath, hent, if_pos hfresh]
  · intro a view now path e hpath hent hmiss
    simp only [readFile, if_neg hpath, hent, if_neg hmiss]
  · intro a view now path hpath hent
    simp only [readFile, if_neg hpath, hent]
  · intro a view now path d hview
    simp only [freshRead, hview]

/-- C7 witness: reading a path through an always-succeeding view tool at time
0 is a fresh read (`fromCache: false`); reading it again at time 1 — within
the 30-minute TTL — is served from the cache (`fromCache: true`); reading it
again at time 1800000, once the TTL has elapsed, is a fresh read again
(`fromCache: false`). -/
theorem readFile_cache_ttl_witness :
    (readFile { fileCache := [] } c7View 0 "p").2
      = .ok { path := "p", content := "hello",
              metadata := { size := 5, encoding := "utf8", timestamp := 0 },
              fromCache := false } ∧
    readFile (readFile { fileCache := [] } c7View 0 "p").1 c7View 1 "p"
      = ((readFile { fileCache := [] } c7View 0 "p").1,
          .ok { path := "p", content := "hello",
                metadata := { size := 5, encoding := "utf8", timestamp := 0 },
                fromCache := true }) ∧
    (readFile (readFile { fileCache := [] } c7View 0 "p").1 c7View 1800000 "p").2
      = .ok { path := "p", content := "hello",
              metadata := { size := 5, encoding := "utf8", timestamp := 0 },
              fromCache := false } := by
  have hs1 : (readFile { fileCache := [] } c7View 0 "p").1
      = { fileCache :=
            [("p", { content := "hello",
                     metadata := { size := 5, encoding := "utf8", timestamp := 0 },
                     timestamp := 0 })] } := by
    simp [readFile, getEntry, freshRead, c7View, setEntry]
  refine ⟨?_, ?_, ?_⟩
  · have hmiss := readFile_cache_ttl.2.2.1 { fileCache := [] } c7View 0 "p"
      (by decide) rfl
    rw [hmiss]
    exact readFile_cache_ttl.2.2.2 { fileCache := [] } c7View 0 "p"
      { content := "hello", metadata := { size := 5, encoding := "utf8", timestamp := 0 } }
      rfl
  · rw [hs1]
    exact readFile_cache_ttl.1 _ c7View 1 "p"
      { content := "hello",
        metadata := { size := 5, encoding := "utf8", timestamp := 0 }, timestamp := 0 }
      (by decide) rfl (by decide)
  · rw [hs1]
    have hexp := readFile_cache_ttl.2.1
      { fileCache :=
          [("p", { content := "hello",
                   metadata := { size := 5, encoding := "utf8", timestamp := 0 },
                   timestamp := 0 })] }
      c7View 1800000 "p"
      { content := "hello",
        metadata := { size := 5, encoding := "utf8", timestamp := 0 }, timestamp := 0 }
      (by decide) rfl (by decide)
    rw [hexp]
    exact readFile_cache_ttl.2.2.2 _ c7View 1800000 "p"
      { content := "hello", metadata := { size := 5, encoding := "utf8", timestamp := 0 } }
      rfl

end AgentExtension
